import Mathlib

/-!
Verification of the log-space probability library.

The library stores a non-negative real number by its natural logarithm
inside `LogFloatingPoint<T, ulp, C>` (src/include/probability/probability.hpp).
The stored logarithm is a floating-point number of type `T`; the special
values that the code manipulates explicitly are `-infinity` (the canonical
representation of the real value 0), `+infinity` and NaN (which arise from
expressions such as `value - (-infinity)` and `-infinity - (-infinity)` in
`operator/=`).  We embed `T` as an idealised IEEE-style domain `F`: either
NaN, one of the two infinities, or an exact real number.  Rounding of finite
results is not modelled; the special-value propagation and the comparison
semantics (every comparison with NaN is false) follow the IEEE rules that
the C++ code relies on.

Assertions (`assert` in the source) are modelled by returning `Option F`:
`none` means the assertion fired, `some v` means the operation completed
with the new stored logarithm `v`.
-/

namespace Probability

noncomputable section

/-- An idealised floating-point value: NaN, minus infinity, plus infinity,
or a finite value modelled as an exact real number. -/
inductive F : Type where
  | nan : F
  | negInf : F
  | posInf : F
  | fin : ℝ → F
deriving DecidableEq

namespace F

/-- IEEE negation. -/
def neg : F → F
  | nan => nan
  | negInf => posInf
  | posInf => negInf
  | fin x => fin (-x)

/-- IEEE addition: NaN propagates, opposite infinities give NaN,
an infinity absorbs finite values, finite values add exactly. -/
def add : F → F → F
  | nan, _ => nan
  | _, nan => nan
  | negInf, posInf => nan
  | posInf, negInf => nan
  | negInf, _ => negInf
  | _, negInf => negInf
  | posInf, _ => posInf
  | _, posInf => posInf
  | fin x, fin y => fin (x + y)

/-- IEEE subtraction, as in `a + (-b)`. -/
def sub (a b : F) : F := a.add b.neg

/-- IEEE `std::exp`: `exp(-inf) = 0`, `exp(+inf) = +inf`, NaN propagates. -/
def exp : F → F
  | nan => nan
  | negInf => fin 0
  | posInf => posInf
  | fin x => fin (Real.exp x)

/-- IEEE `std::log1p`: NaN below `-1` (and at `-infinity`), `-infinity`
at exactly `-1`, finite otherwise. -/
def log1p : F → F
  | nan => nan
  | negInf => nan
  | posInf => posInf
  | fin x => if x < -1 then nan else if x = -1 then negInf else fin (Real.log (1 + x))

/-- IEEE `<=`: false whenever either operand is NaN. -/
def le : F → F → Prop
  | nan, _ => False
  | _, nan => False
  | negInf, _ => True
  | _, negInf => False
  | _, posInf => True
  | posInf, _ => False
  | fin x, fin y => x ≤ y

/-- IEEE `<`: false whenever either operand is NaN. -/
def lt : F → F → Prop
  | nan, _ => False
  | _, nan => False
  | negInf, negInf => False
  | negInf, _ => True
  | _, negInf => False
  | posInf, _ => False
  | _, posInf => True
  | fin x, fin y => x < y

/-- IEEE `==`: false whenever either operand is NaN, otherwise equality. -/
def eeq : F → F → Prop
  | negInf, negInf => True
  | posInf, posInf => True
  | fin x, fin y => x = y
  | _, _ => False

instance decLe : (a b : F) → Decidable (le a b)
  | nan, nan => isFalse id
  | nan, negInf => isFalse id
  | nan, posInf => isFalse id
  | nan, fin _ => isFalse id
  | negInf, nan => isFalse id
  | negInf, negInf => isTrue trivial
  | negInf, posInf => isTrue trivial
  | negInf, fin _ => isTrue trivial
  | posInf, nan => isFalse id
  | posInf, negInf => isFalse id
  | posInf, posInf => isTrue trivial
  | posInf, fin _ => isFalse id
  | fin _, nan => isFalse id
  | fin _, negInf => isFalse id
  | fin _, posInf => isTrue trivial
  | fin x, fin y => inferInstanceAs (Decidable (x ≤ y))

instance decLt : (a b : F) → Decidable (lt a b)
  | nan, nan => isFalse id
  | nan, negInf => isFalse id
  | nan, posInf => isFalse id
  | nan, fin _ => isFalse id
  | negInf, nan => isFalse id
  | negInf, negInf => isFalse id
  | negInf, posInf => isTrue trivial
  | negInf, fin _ => isTrue trivial
  | posInf, nan => isFalse id
  | posInf, negInf => isFalse id
  | posInf, posInf => isFalse id
  | posInf, fin _ => isFalse id
  | fin _, nan => isFalse id
  | fin _, negInf => isFalse id
  | fin _, posInf => isTrue trivial
  | fin x, fin y => inferInstanceAs (Decidable (x < y))

instance decEeq : (a b : F) → Decidable (eeq a b)
  | nan, nan => isFalse id
  | nan, negInf => isFalse id
  | nan, posInf => isFalse id
  | nan, fin _ => isFalse id
  | negInf, nan => isFalse id
  | negInf, negInf => isTrue trivial
  | negInf, posInf => isFalse id
  | negInf, fin _ => isFalse id
  | posInf, nan => isFalse id
  | posInf, negInf => isFalse id
  | posInf, posInf => isTrue trivial
  | posInf, fin _ => isFalse id
  | fin _, nan => isFalse id
  | fin _, negInf => isFalse id
  | fin _, posInf => isFalse id
  | fin x, fin y => inferInstanceAs (Decidable (x = y))

end F

/-- IEEE `std::log` on a real input: NaN for negative input, `-infinity`
at 0, finite natural logarithm for positive input. -/
def flog (v : ℝ) : F :=
  if v < 0 then F.nan else if v = 0 then F.negInf else F.fin (Real.log v)

/-- Machine epsilon of the underlying type; the model fixes the `double`
instantiation, `std::numeric_limits<double>::epsilon() = 2^(-52)`. -/
def eps : ℝ := ((2 : ℝ) ^ (52 : ℕ))⁻¹

/-- The upper bound used by `ProbabilityChecker::check_range`, from
`epsilon() * (1 << ulp)` in the source.  The shift is modelled on `Nat`
(the source static_assert keeps `ulp` at most the number of mantissa
digits; the int overflow of the C++ shift for very large `ulp` is not
modelled). -/
def limit (ulp : ℕ) : ℝ := eps * ((1 <<< ulp : ℕ) : ℝ)

/-- The checker policy injected into `LogFloatingPoint`: `EmptyChecker`
or `ProbabilityChecker<T, ulp>`. -/
inductive Checker : Type where
  | empty : Checker
  | prob : ℕ → Checker
deriving DecidableEq

/-- `EmptyChecker::check_initial_value` is a no-op;
`ProbabilityChecker::check_initial_value` is `assert(v <= 1.0)`. -/
def check_initial_value : Checker → ℝ → Prop
  | .empty, _ => True
  | .prob _, v => v ≤ 1

/-- `EmptyChecker::check_range` is a no-op;
`ProbabilityChecker::check_range` is `assert(value <= limit)`. -/
def check_range : Checker → F → Prop
  | .empty, _ => True
  | .prob ulp, v => F.le v (F.fin (limit ulp))

instance decCheckInitialValue :
    (ch : Checker) → (v : ℝ) → Decidable (check_initial_value ch v)
  | .empty, _ => isTrue trivial
  | .prob _, v => inferInstanceAs (Decidable (v ≤ 1))

instance decCheckRange :
    (ch : Checker) → (v : F) → Decidable (check_range ch v)
  | .empty, _ => isTrue trivial
  | .prob ulp, v => inferInstanceAs (Decidable (F.le v (F.fin (limit ulp))))

namespace LogFloatingPoint

/-- The default member initialiser of `LogFloatingPoint`:
`value_type value = -infinity;` with the defaulted constructor, which
invokes neither checker method. -/
def defaultInit : F := F.negInf

/-- `LogFloatingPoint(value_type v)`: sets `value = std::log(v)`, then
`assert(v >= 0.0)` and `check_initial_value(v)`. -/
def mk (ch : Checker) (v : ℝ) : Option F :=
  if 0 ≤ v ∧ check_initial_value ch v then some (flog v) else none

/-- `explicit operator value_type()`: returns `std::exp(value)`. -/
def toValue (value : F) : F := value.exp

/-- `operator+=`: branch-for-branch translation of the log-sum-exp update
with its two zero special cases; the formula branches end in
`check_range()`. -/
def addAssign (ch : Checker) (value rhs : F) : Option F :=
  if rhs = F.negInf then
    some value
  else if value = F.negInf then
    some rhs
  else if F.le rhs value then
    let v := value.add ((rhs.sub value).exp.log1p)
    if check_range ch v then some v else none
  else
    let v := rhs.add ((value.sub rhs).exp.log1p)
    if check_range ch v then some v else none

/-- `operator-=`: returns the value unchanged when subtracting zero,
asserts false when the left side is zero and the right is not, otherwise
asserts `value >= rhs.data()` and applies the stable subtraction formula
followed by `check_range()`. -/
def subAssign (ch : Checker) (value rhs : F) : Option F :=
  if rhs = F.negInf then
    some value
  else if value = F.negInf then
    none
  else if F.le rhs value then
    let v := value.add (((rhs.sub value).exp.neg).log1p)
    if check_range ch v then some v else none
  else
    none

/-- `operator*=`: `value += rhs.data()` followed by `check_range()`. -/
def mulAssign (ch : Checker) (value rhs : F) : Option F :=
  let v := value.add rhs
  if check_range ch v then some v else none

/-- `operator/=`: `value -= rhs.data()` followed by `check_range()`. -/
def divAssign (ch : Checker) (value rhs : F) : Option F :=
  let v := value.sub rhs
  if check_range ch v then some v else none

end LogFloatingPoint

namespace ProbabilityLegacy

/-- The default member initialiser of the legacy `Probability` class in
src/include/probability.hpp: `value_type value = 0.0;` with the defaulted
constructor. -/
def defaultInit : F := F.fin 0

end ProbabilityLegacy

/-- The invariant maintained under the probability policy: the stored
logarithm is `-infinity` or at most `limit`. -/
def ProbInvariant (ulp : ℕ) (v : F) : Prop :=
  F.le v (F.fin (limit ulp)) ∨ v = F.negInf

/-! Basic computation lemmas for the floating-point domain. -/

@[simp] theorem F.neg_fin (x : ℝ) : (F.fin x).neg = F.fin (-x) := rfl

@[simp] theorem F.add_fin_fin (x y : ℝ) :
    (F.fin x).add (F.fin y) = F.fin (x + y) := rfl

@[simp] theorem F.sub_fin_fin (x y : ℝ) :
    (F.fin x).sub (F.fin y) = F.fin (x - y) := by
  simp [F.sub, sub_eq_add_neg]

@[simp] theorem F.exp_fin (x : ℝ) : (F.fin x).exp = F.fin (Real.exp x) := rfl

@[simp] theorem F.exp_negInf : F.negInf.exp = F.fin 0 := rfl

@[simp] theorem F.log1p_fin_exp (t : ℝ) :
    (F.fin (Real.exp t)).log1p = F.fin (Real.log (1 + Real.exp t)) := by
  have h1 : ¬ Real.exp t < -1 := by nlinarith [Real.exp_pos t]
  have h2 : Real.exp t ≠ -1 := by nlinarith [Real.exp_pos t]
  simp [F.log1p, h1, h2]

@[simp] theorem F.le_fin_fin (x y : ℝ) : F.le (F.fin x) (F.fin y) ↔ x ≤ y :=
  Iff.rfl

@[simp] theorem F.lt_fin_fin (x y : ℝ) : F.lt (F.fin x) (F.fin y) ↔ x < y :=
  Iff.rfl

@[simp] theorem F.le_negInf_left (b : F) (h : b ≠ F.nan) : F.le F.negInf b := by
  cases b <;> simp_all [F.le]

@[simp] theorem F.fin_ne_negInf (x : ℝ) : F.fin x ≠ F.negInf := by
  simp

open LogFloatingPoint in
/-- Claim C1: `operator+=` leaves the value unchanged when the right-hand
stored logarithm is `-infinity`; assigns the right-hand stored logarithm
directly when the left-hand one is `-infinity` and the right-hand one is
not; and otherwise, for finite operands, updates the stored logarithm to
`max + log1p(exp(min - max))` (followed by the checker range assertion). -/
theorem addAssign_spec (ch : Checker) (a b : F) (x y : ℝ) :
    addAssign ch a F.negInf = some a ∧
    (b ≠ F.negInf → addAssign ch F.negInf b = some b) ∧
    addAssign ch (F.fin x) (F.fin y) =
      (if check_range ch
          (F.fin (max x y + Real.log (1 + Real.exp (min x y - max x y))))
       then some (F.fin (max x y + Real.log (1 + Real.exp (min x y - max x y))))
       else none) := by
  refine ⟨by simp [addAssign], fun h => by simp [addAssign, h], ?_⟩
  by_cases hxy : y ≤ x
  · have hmax : max x y = x := max_eq_left hxy
    have hmin : min x y = y := min_eq_right hxy
    rw [hmax, hmin]
    simp [addAssign, hxy]
  · have hlt : x < y := lt_of_not_le hxy
    have hmax : max x y = y := max_eq_right hlt.le
    have hmin : min x y = x := min_eq_left hlt.le
    rw [hmax, hmin]
    simp [addAssign, hxy]

/-- Witness for claim C1: adding one half to the representation of zero
assigns the stored logarithm of one half directly. -/
theorem addAssign_spec_witness :
    LogFloatingPoint.addAssign Checker.empty F.negInf (F.fin (Real.log (1/2)))
      = some (F.fin (Real.log (1/2))) :=
  (addAssign_spec Checker.empty F.negInf (F.fin (Real.log (1/2))) 0 0).2.1
    (F.fin_ne_negInf _)

@[simp] theorem F.add_fin_negInf (x : ℝ) : (F.fin x).add F.negInf = F.negInf := rfl

@[simp] theorem F.sub_fin_negInf (x : ℝ) : (F.fin x).sub F.negInf = F.posInf := rfl

@[simp] theorem F.sub_negInf_negInf : F.negInf.sub F.negInf = F.nan := rfl

@[simp] theorem F.sub_negInf_fin (y : ℝ) : F.negInf.sub (F.fin y) = F.negInf := rfl

@[simp] theorem check_range_empty (v : F) : check_range Checker.empty v := trivial

@[simp] theorem check_range_negInf (ch : Checker) : check_range ch F.negInf := by
  cases ch <;> simp [check_range, F.le]

@[simp] theorem F.log1p_fin_neg_one : (F.fin (-1 : ℝ)).log1p = F.negInf := by
  simp [F.log1p]

theorem F.log1p_fin_neg_exp_of_neg {t : ℝ} (ht : t < 0) :
    (F.fin (-Real.exp t)).log1p = F.fin (Real.log (1 - Real.exp t)) := by
  have h0 : Real.exp t < 1 := by
    calc Real.exp t < Real.exp 0 := Real.exp_lt_exp.mpr ht
    _ = 1 := Real.exp_zero
  have h1 : ¬ (-Real.exp t < -1) := by nlinarith
  have h2 : (-Real.exp t) ≠ -1 := by intro h; nlinarith
  simp [F.log1p, h1, h2, sub_eq_add_neg]

open LogFloatingPoint in
/-- Claim C2: under the probability policy, dividing any stored value by
the representation of zero fails the range assertion, while dividing the
representation of zero by a finite (nonzero represented) value succeeds
under either policy, keeps the stored logarithm at `-infinity`, and the
represented value of that result is 0. -/
theorem divAssign_zero_spec (ulp : ℕ) (ch : Checker) (a : F) (y : ℝ) :
    divAssign (Checker.prob ulp) a F.negInf = none ∧
    divAssign ch F.negInf (F.fin y) = some F.negInf ∧
    toValue F.negInf = F.fin 0 := by
  refine ⟨?_, ?_, rfl⟩
  · cases a <;> simp [divAssign, F.sub, F.add, F.neg, check_range, F.le]
  · simp [divAssign]

open LogFloatingPoint in
/-- Claim C3: `operator-=` returns the left value unchanged when the right
operand represents zero; fires the assertion when the left operand
represents zero and the right does not; fires the precondition assertion
`value >= rhs.data()` when the left stored logarithm is smaller; and when
the precondition holds on finite operands it applies the stable formula
`a.log + log1p(-exp(b.log - a.log))` followed by the range check (the
formula yielding `-infinity` when the two stored logarithms coincide). -/
theorem subAssign_spec (ch : Checker) (a : F) (x y : ℝ) :
    subAssign ch a F.negInf = some a ∧
    subAssign ch F.negInf (F.fin y) = none ∧
    (x < y → subAssign ch (F.fin x) (F.fin y) = none) ∧
    (y ≤ x → subAssign ch (F.fin x) (F.fin y) =
      (if check_range ch
          (if y = x then F.negInf
           else F.fin (x + Real.log (1 - Real.exp (y - x))))
       then some (if y = x then F.negInf
                  else F.fin (x + Real.log (1 - Real.exp (y - x))))
       else none)) := by
  refine ⟨by simp [subAssign], by simp [subAssign], ?_, ?_⟩
  · intro h
    simp [subAssign, h.not_le]
  · intro hyx
    rcases eq_or_lt_of_le hyx with he | hlt
    · subst he
      simp [subAssign, Real.exp_zero]
    · have ht : y - x < 0 := sub_neg.mpr hlt
      simp [subAssign, hyx, F.log1p_fin_neg_exp_of_neg ht, hlt.ne]

/-- Witness for claim C3: subtracting three quarters from one half fires
the precondition assertion, as the spec scenario requires. -/
theorem subAssign_spec_witness :
    LogFloatingPoint.subAssign (Checker.prob 0)
      (F.fin (Real.log (1/2))) (F.fin (Real.log (3/4))) = none :=
  (subAssign_spec (Checker.prob 0) F.nan (Real.log (1/2)) (Real.log (3/4))).2.2.1
    (Real.log_lt_log (by norm_num) (by norm_num))

open LogFloatingPoint in
/-- Claim C9: subtracting a value with finite stored logarithm from itself
passes the precondition with equality and produces exactly the
representation of zero, the stored logarithm `-infinity`. -/
theorem subAssign_self_spec (ch : Checker) (x : ℝ) :
    subAssign ch (F.fin x) (F.fin x) = some F.negInf := by
  simp [subAssign, Real.exp_zero]

open LogFloatingPoint in
/-- Claim C4: construction from a plain value fails for negative input
under every policy, additionally fails above 1 under the probability
policy, and otherwise succeeds storing the natural logarithm of the
input. -/
theorem mk_spec (ch : Checker) (ulp : ℕ) (v : ℝ) :
    (v < 0 → mk ch v = none) ∧
    (1 < v → mk (Checker.prob ulp) v = none) ∧
    (0 ≤ v → mk Checker.empty v = some (flog v)) ∧
    (0 ≤ v → v ≤ 1 → mk (Checker.prob ulp) v = some (flog v)) ∧
    (0 < v → flog v = F.fin (Real.log v)) := by
  refine ⟨?_, ?_, ?_, ?_, ?_⟩
  · intro h
    simp [mk, not_le.mpr h]
  · intro h
    simp [mk, check_initial_value, h.not_le]
  · intro h
    simp [mk, check_initial_value, h]
  · intro h0 h1
    simp [mk, check_initial_value, h0, h1]
  · intro h
    simp [flog, not_lt.mpr h.le, h.ne.symm]

/-- Witness for claim C4: half is accepted under the probability policy
and stores the logarithm of one half. -/
theorem mk_spec_witness :
    LogFloatingPoint.mk (Checker.prob 0) (1/2) = some (flog (1/2)) :=
  (mk_spec Checker.empty 0 (1/2)).2.2.2.1 (by norm_num) (by norm_num)

/-- Claim C5: the core `LogFloatingPoint` default member initialiser is
`-infinity` (the representation of 0, no checker invoked), but the legacy
`Probability` class in src/include/probability.hpp default-initialises the
stored logarithm to `0.0`, whose represented value is `exp(0) = 1`, not 0,
contradicting the legacy test `CanBeDefaultInitialized`. -/
theorem default_init_divergence :
    LogFloatingPoint.defaultInit = F.negInf ∧
    ProbabilityLegacy.defaultInit = F.fin 0 ∧
    ProbabilityLegacy.defaultInit.exp = F.fin 1 ∧
    ProbabilityLegacy.defaultInit ≠ F.negInf := by
  refine ⟨rfl, rfl, ?_, by simp [ProbabilityLegacy.defaultInit]⟩
  simp [ProbabilityLegacy.defaultInit, F.exp, Real.exp_zero]

theorem limit_pos (ulp : ℕ) : 0 < limit ulp := by
  unfold limit eps
  rw [Nat.one_shiftLeft]
  push_cast
  positivity

open LogFloatingPoint in
/-- Claim C6: under the probability policy, the range check asserts that
the stored logarithm is at most `limit = epsilon * 2^ulp`; with the
default `ulp = 0` the bound is exactly one machine epsilon; `operator*=`
and `operator/=` apply exactly this check to the updated logarithm. -/
theorem check_range_limit_spec (ulp : ℕ) (v a b : F) :
    limit ulp = eps * 2 ^ ulp ∧
    limit 0 = eps ∧
    (check_range (Checker.prob ulp) v ↔ F.le v (F.fin (eps * 2 ^ ulp))) ∧
    mulAssign (Checker.prob ulp) a b =
      (if F.le (a.add b) (F.fin (limit ulp)) then some (a.add b) else none) ∧
    divAssign (Checker.prob ulp) a b =
      (if F.le (a.sub b) (F.fin (limit ulp)) then some (a.sub b) else none) := by
  have hl : limit ulp = eps * 2 ^ ulp := by
    unfold limit
    rw [Nat.one_shiftLeft]
    push_cast
    ring
  refine ⟨hl, ?_, by rw [check_range, hl], ?_, ?_⟩
  · unfold limit
    norm_num
  · simp [mulAssign, check_range]
  · simp [divAssign, check_range]

@[simp] theorem F.log1p_fin_zero : (F.fin (0 : ℝ)).log1p = F.fin (Real.log 1) := by
  norm_num [F.log1p]

theorem addAssign_comm_fin (ch : Checker) (x y : ℝ) :
    LogFloatingPoint.addAssign ch (F.fin x) (F.fin y) =
      LogFloatingPoint.addAssign ch (F.fin y) (F.fin x) := by
  rcases le_total x y with h | h
  · rcases eq_or_lt_of_le h with rfl | hlt
    · rfl
    · simp [LogFloatingPoint.addAssign, hlt.le, hlt.not_le]
  · rcases eq_or_lt_of_le h with rfl | hlt
    · rfl
    · simp [LogFloatingPoint.addAssign, hlt.le, hlt.not_le]

open LogFloatingPoint in
/-- Claim C7: the representation of zero is a right (and by symmetry left)
identity for `operator+`, exactly; and `operator+=` is commutative on all
stored values, exactly in the idealised real model. -/
theorem addAssign_identity_comm (ch : Checker) (c a b : F) :
    addAssign ch c F.negInf = some c ∧
    addAssign ch a b = addAssign ch b a := by
  refine ⟨by simp [addAssign], ?_⟩
  cases a <;> cases b <;>
    first
      | exact addAssign_comm_fin ch _ _
      | simp [addAssign, F.sub, F.add, F.neg, F.exp, F.log1p, F.le]

open LogFloatingPoint in
/-- Claim C8: the comparisons act directly on the stored logarithms; a
strict inequality between represented (plain) values forces a strict
log-space comparison, both through the conversion `exp` and through
construction by `log`; and `operator==` is exact equality of the stored
logarithms, with no epsilon tolerance. -/
theorem ordering_spec (a b : F) (x y u v : ℝ) :
    (F.lt a.exp b.exp → F.lt a b) ∧
    (F.eeq (F.fin x) (F.fin y) ↔ x = y) ∧
    (0 ≤ u → u < v → F.lt (flog u) (flog v)) := by
  refine ⟨?_, Iff.rfl, ?_⟩
  · cases a <;> cases b <;> simp [F.exp, F.lt]
    exact (Real.exp_pos _).le
  · intro hu huv
    rcases eq_or_lt_of_le hu with rfl | hpos
    · have hv : (0:ℝ) < v := huv
      simp [flog, hv.not_lt, hv.ne.symm, F.lt]
    · have hv : (0:ℝ) < v := hpos.trans huv
      simp [flog, hpos.not_lt, hpos.ne.symm, hv.not_lt, hv.ne.symm, F.lt]
      exact Real.log_lt_log hpos huv

/-- Witness for claim C8: the representation of zero compares strictly
below the representation of one. -/
theorem ordering_spec_witness : F.lt (flog 0) (flog 1) :=
  (ordering_spec F.nan F.nan 0 0 0 1).2.2 le_rfl one_pos

theorem ProbInvariant.of_check (ulp : ℕ) {v : F}
    (h : check_range (Checker.prob ulp) v) : ProbInvariant ulp v :=
  Or.inl h

open LogFloatingPoint in
/-- Claim C10: under the probability policy, the predicate "the stored
logarithm is `-infinity` or at most `limit`" holds after default
construction and after checked construction, and is preserved by every
compound assignment whose assertions pass, including the unchecked branch
of `operator+=` that copies the right-hand logarithm when the left-hand
side represents zero. -/
theorem prob_invariant_spec (ulp : ℕ) (v : ℝ) (a b s : F) :
    ProbInvariant ulp LogFloatingPoint.defaultInit ∧
    (mk (Checker.prob ulp) v = some s → ProbInvariant ulp s) ∧
    (ProbInvariant ulp a → ProbInvariant ulp b →
      addAssign (Checker.prob ulp) a b = some s → ProbInvariant ulp s) ∧
    (ProbInvariant ulp a → ProbInvariant ulp b →
      subAssign (Checker.prob ulp) a b = some s → ProbInvariant ulp s) ∧
    (mulAssign (Checker.prob ulp) a b = some s → ProbInvariant ulp s) ∧
    (divAssign (Checker.prob ulp) a b = some s → ProbInvariant ulp s) := by
  refine ⟨Or.inr rfl, ?_, ?_, ?_, ?_, ?_⟩
  · intro h
    rw [mk] at h
    split_ifs at h with hc
    obtain rfl := Option.some.inj h
    rcases hc with ⟨h0, h1⟩
    rw [check_initial_value] at h1
    rw [flog]
    split_ifs with hneg hzero
    · exact absurd hneg h0.not_lt
    · exact Or.inr rfl
    · exact Or.inl (le_trans (Real.log_nonpos h0 h1) (limit_pos ulp).le)
  · intro ha hb h
    simp only [addAssign] at h
    split_ifs at h with h1 h2 h3 h4 h5
    all_goals first
      | exact (Option.some.inj h) ▸ ha
      | exact (Option.some.inj h) ▸ hb
      | exact Option.some.inj h ▸ ProbInvariant.of_check ulp h4
      | exact Option.some.inj h ▸ ProbInvariant.of_check ulp h5
  · intro ha hb h
    simp only [subAssign] at h
    split_ifs at h with h1 h2 h3 h4
    all_goals first
      | exact (Option.some.inj h) ▸ ha
      | exact Option.some.inj h ▸ ProbInvariant.of_check ulp h4
  · intro h
    simp only [mulAssign] at h
    split_ifs at h with hc
    all_goals first
      | exact Option.some.inj h ▸ ProbInvariant.of_check ulp hc
  · intro h
    simp only [divAssign] at h
    split_ifs at h with hc
    all_goals first
      | exact Option.some.inj h ▸ ProbInvariant.of_check ulp hc

/-- Witness for claim C10: the invariant holds for the value constructed
from one half under the probability policy. -/
theorem prob_invariant_witness : ProbInvariant 0 (flog (1/2)) :=
  (prob_invariant_spec 0 (1/2) F.nan F.nan (flog (1/2))).2.1
    (by norm_num [LogFloatingPoint.mk, check_initial_value])

end

end Probability
